import Mathlib

/-!
# Verification of the binstruct3 packing engine

Shallow embedding of `binstruct3/__init__.py`: Python values flowing through
the packers, the scalar codec (`RawPacker`), the text codec (`CharsPacker`),
the composite packers (`ArrayPacker`, `StructPacker`) and the struct engine
(`Packable.dump` / `Packable.reload` / `Packable.byte_size` /
`Packable.load`), followed by theorems about round-trips, sizing, error
behaviour and default handling.

Bytes are modelled as `Nat` (each `< 256` where it matters), streams as
`List Nat` consumed from the front, Python `str` values as their character
codes (`List Nat`); the injectable text codec is modelled as the latin-1
style identity on codes `< 256` (the spec treats the encoding table as an
external collaborator).  Machine integers are `Int` with explicit range
checks and `% 2 ^ (8 * w)` reductions, exactly as `struct.pack`/`unpack`
behave for the fixed-width formats the library uses.
-/

namespace Binstruct3

/-- A Python value as it flows through the packers: `None`, an `int`, a
`str` (as character codes), a `list`, or a packable instance (one slot per
field, in declaration order). -/
inductive Value where
  | pynone : Value
  | int : Int → Value
  | str : List Nat → Value
  | list : List Value → Value
  | struct : List Value → Value

/-- The exceptions the code can raise.  `structErr` is a `struct.error`
wrapped into `Binstruct3Error`; `encodeErr` is the broad `except Exception`
wrap in `CharsPacker.pack`; `elemTag i e` is the "element i: ..." re-raise
in `ArrayPacker`; `fieldTag name e` is a `FieldError` naming the field;
`typeErr` is a plain Python `TypeError`/`AttributeError` (NOT a
`Binstruct3Error`, so `except Binstruct3Error` clauses let it through);
`countErr` is the `ValueError` from the `Packable.load` count checks. -/
inductive Err where
  | structErr : Err
  | encodeErr : Err
  | typeErr : Err
  | countErr : Err
  | elemTag : Nat → Err → Err
  | fieldTag : String → Err → Err
  deriving DecidableEq, Repr

/-- Whether the exception is a `Binstruct3Error` (`FieldError` is a
subclass, so field-tagged errors count). -/
def Err.isBin : Err → Bool
  | .typeErr => false
  | .countErr => false
  | _ => true

/-- A packer configuration.
`raw signed width default` is a `RawPacker` over one fixed-width integer
format (`int8` ... `uint64`); `chars sz terminate default` is a
`CharsPacker` with `_sz = sz` and `_terminate_at_first_zero = terminate`;
`arr p c` is an `ArrayPacker`; `struc align fields` is a `StructPacker`
over a `@packable(align)` class with the given named fields. -/
inductive Packer where
  | raw : Bool → Nat → Option Int → Packer
  | chars : Nat → Bool → Option (List Nat) → Packer
  | arr : Packer → Nat → Packer
  | struc : Nat → List (String × Packer) → Packer

/-- A schema field: the storage name and the field's packer
(`PackerField.storage`, `PackerField._packer`). -/
abbrev FieldSpec := String × Packer

/-! ### Scalar codec (`RawPacker`) -/

/-- Little-endian byte decomposition, `w` bytes of `v`. -/
def leBytes : Nat → Nat → List Nat
  | 0, _ => []
  | w + 1, v => v % 256 :: leBytes w (v / 256)

/-- Little-endian byte recomposition. -/
def leVal : List Nat → Nat
  | [] => 0
  | b :: bs => b + 256 * leVal bs

/-- Smallest representable value of the format (`struct.pack` range). -/
def rawMin (signed : Bool) (w : Nat) : Int :=
  if signed then -(2 ^ (8 * w - 1)) else 0

/-- One past the largest representable value of the format. -/
def rawMax (signed : Bool) (w : Nat) : Int :=
  if signed then 2 ^ (8 * w - 1) else 2 ^ (8 * w)

/-- `struct.pack` accepts exactly the ints inside the format's range. -/
def inRange (signed : Bool) (w : Nat) (i : Int) : Bool :=
  decide (rawMin signed w ≤ i) && decide (i < rawMax signed w)

/-- `RawPacker.pack`: `struct.pack(format, obj)` for a fixed-width integer
format, with `struct.error` wrapped into `Binstruct3Error`.  Non-int
arguments (including `None`) are a `struct.error`. -/
def rawPack (signed : Bool) (w : Nat) (v : Value) : Except Err (List Nat) :=
  match v with
  | .int i =>
    if inRange signed w i then
      .ok (leBytes w ((i % ((2 : Int) ^ (8 * w))).toNat))
    else .error .structErr
  | _ => .error .structErr

/-- `RawPacker.unpack`: read `w` bytes (`struct.unpack` raises when the
stream yields fewer) and reassemble the integer, two's complement when
signed. -/
def rawUnpack (signed : Bool) (w : Nat) (s : List Nat) : Except Err (Value × List Nat) :=
  if w ≤ s.length then
    let n := leVal (s.take w)
    let i : Int := if signed ∧ 2 ^ (8 * w - 1) ≤ n then (n : Int) - 2 ^ (8 * w) else (n : Int)
    .ok (.int i, s.drop w)
  else .error .structErr

/-- `RawPacker.validate_value`: `None` passes; anything else must survive
`struct.pack`. -/
def rawValidate (signed : Bool) (w : Nat) (v : Value) : Except Err Unit :=
  match v with
  | .pynone => .ok ()
  | .int i => if inRange signed w i then .ok () else .error .structErr
  | _ => .error .structErr

/-- `RawPacker.__call__(default_val)`: `default_val or self._default_val`
keeps the old default whenever the argument is falsy — Python's `or`
treats the int `0` exactly like `None` here. -/
def rawCall (signed : Bool) (w : Nat) (base : Option Int) (arg : Option Int) : Packer :=
  Packer.raw signed w
    (match arg with
     | Option.none => base
     | Option.some d => if d = 0 then base else Option.some d)

/-! ### Text codec (`CharsPacker`) -/

/-- `CharsPacker._encode` followed by `struct.pack(str(sz) + "s", val)`:
encoding is the identity on codes `< 256` (latin-1 style), short values
are padded with NUL bytes, and `struct.pack`'s `s` format silently
truncates values longer than `sz`.  `Option.none` is an encoding failure
(a code the codec cannot represent). -/
def charsEncode (sz : Nat) (s : List Nat) : Option (List Nat) :=
  if s.all (fun c => c < 256) then
    let padded := if s.length < sz then s ++ List.replicate (sz - s.length) 0 else s
    Option.some (padded.take sz)
  else Option.none

/-- Decode policy `terminate_at_first_zero`: the string ends at the first
NUL byte. -/
def stripAfterZero (l : List Nat) : List Nat :=
  l.takeWhile (fun c => c ≠ 0)

/-- Decode policy for `terminate_at_first_zero=False`: `rstrip('\x00')`. -/
def stripTrailingZeros (l : List Nat) : List Nat :=
  (l.reverse.dropWhile (fun c => c = 0)).reverse

/-- `CharsPacker._decode`. -/
def charsDecode (terminate : Bool) (l : List Nat) : List Nat :=
  if terminate then stripAfterZero l else stripTrailingZeros l

/-- `CharsPacker.pack`: `_encode` then the raw pack, with every exception
(including the `AttributeError` from a non-str value) wrapped into
`Binstruct3Error` by the broad `except Exception` clause. -/
def charsPack (sz : Nat) (v : Value) : Except Err (List Nat) :=
  match v with
  | .str s =>
    match charsEncode sz s with
    | Option.some bs => .ok bs
    | Option.none => .error .encodeErr
  | _ => .error .encodeErr

/-- `CharsPacker.unpack`: read exactly `sz` bytes then `_decode`. -/
def charsUnpack (sz : Nat) (terminate : Bool) (s : List Nat) : Except Err (Value × List Nat) :=
  if sz ≤ s.length then
    .ok (.str (charsDecode terminate (s.take sz)), s.drop sz)
  else .error .structErr

/-- `CharsPacker.validate_value`: `None` passes; otherwise `_encode` runs
unprotected (its failure is a raw `UnicodeEncodeError`/`AttributeError`,
not a `Binstruct3Error`), and the raw validation of the encoded bytes
always succeeds — over-long values are NOT rejected. -/
def charsValidate (_sz : Nat) (v : Value) : Except Err Unit :=
  match v with
  | .pynone => .ok ()
  | .str s => if s.all (fun c => c < 256) then .ok () else .error .typeErr
  | _ => .error .typeErr

/-! ### Default values (`default_value` across the packer classes) -/

mutual

/-- `default_value`: a raw packer returns its stored constant (possibly
`None`); `ArrayPacker.default_value` is `[elem_default] * cnt`;
`StructPacker.default_value` is a default-initialized instance.  This is
the value-level picture; the reference sharing produced by the Python
`* cnt` replication is modelled separately with an explicit heap. -/
def defaultVal : Packer → Value
  | .raw _ _ d =>
    match d with
    | Option.none => .pynone
    | Option.some i => .int i
  | .chars _ _ d =>
    match d with
    | Option.none => .pynone
    | Option.some s => .str s
  | .arr p c => .list (List.replicate c (defaultVal p))
  | .struc _ fields => .struct (defaultsList fields)

/-- The default value of every field of a schema, in declaration order. -/
def defaultsList : List FieldSpec → List Value
  | [] => []
  | (_, p) :: fields => defaultVal p :: defaultsList fields

end

/-! ### Validation (`validate_value` across the packer classes) -/

mutual

/-- `validate_value`.  `ArrayPacker.validate_value` calls `len(obj)` first
(a `TypeError` for non-sequences), compares against the count
(`Binstruct3Error` "Wrong array size"), then validates each element with
no extra wrapping; a `str` is a Python sequence of 1-character strings.
`StructPacker.validate_value` is an `isinstance` check. -/
def validateVal : Packer → Value → Except Err Unit
  | .raw signed w _, v => rawValidate signed w v
  | .chars sz _ _, v => charsValidate sz v
  | .arr p c, v =>
    match v with
    | .list l => if l.length = c then arrValidateAux p l else .error .structErr
    | .str s =>
      if s.length = c then arrValidateAux p (s.map (fun code => Value.str [code]))
      else .error .structErr
    | _ => .error .typeErr
  | .struc _ _, v =>
    match v with
    | .struct _ => .ok ()
    | _ => .error .structErr
termination_by p _ => (sizeOf p, 0)

/-- Validate the elements of an array value in order, propagating the
first failure unchanged. -/
def arrValidateAux (p : Packer) : List Value → Except Err Unit
  | [] => .ok ()
  | v :: rest =>
    match validateVal p v with
    | .error e => .error e
    | .ok _ => arrValidateAux p rest
termination_by l => (sizeOf p, 1 + sizeOf l)

end

/-! ### Default-filling a fresh instance (`PackerField.fill` with no stream) -/

/-- `PackerField.fill(instance, None)`: take the packer's default and run
`__set__`, which validates first; a `Binstruct3Error` from validation
becomes a `FieldError` in `__set__` and is wrapped into a second
`FieldError` by `fill`'s own `except Binstruct3Error` clause, while plain
Python errors propagate untouched. -/
def fillDefault (name : String) (p : Packer) : Except Err Value :=
  let v := defaultVal p
  match validateVal p v with
  | .error e => .error (if e.isBin then .fieldTag name (.fieldTag name e) else e)
  | .ok _ => .ok v

/-- `Packable.reload(None)`: every field is filled from its default, no
stream is touched. -/
def reloadNone : List FieldSpec → Except Err (List Value)
  | [] => .ok []
  | (name, p) :: fields =>
    match fillDefault name p with
    | .error e => .error e
    | .ok v => (reloadNone fields).map (fun vs => v :: vs)

/-- Constructing a fresh instance (`MyPackable.__init__` with no args)
fills every field from its default, validating each. -/
def checkDefaults (fields : List FieldSpec) : Except Err Unit :=
  (reloadNone fields).map (fun _ => ())

/-! ### Packing (`pack` across the packer classes, `Packable.dump`) -/

mutual

/-- `pack`.  `ArrayPacker.pack` runs `iter(obj)` (a `TypeError` for
non-iterables, not caught anywhere) and takes up to `cnt` items; element
failures that are `Binstruct3Error`s are re-raised tagged "element i".
`StructPacker.pack` is `obj.dump(stream)`. -/
def packVal : Packer → Value → Except Err (List Nat)
  | .raw signed w _, v => rawPack signed w v
  | .chars sz _ _, v => charsPack sz v
  | .arr p c, v =>
    match v with
    | .list l => arrPackAux p (l.take c) 0
    | .str s => arrPackAux p ((s.map (fun code => Value.str [code])).take c) 0
    | _ => .error .typeErr
  | .struc align fields, v =>
    match v with
    | .struct vs => dumpFields align fields vs 0
    | _ => .error .typeErr
termination_by p _ => (sizeOf p, 0)

/-- The `for i in range(cnt)` loop of `ArrayPacker.pack` over the items
the iterator yields.  When the iterator runs dry the `StopIteration`
handler only CONSTRUCTS the "Incomplete array" `Binstruct3Error` — it
never raises it — so the loop silently finishes with the bytes written so
far. -/
def arrPackAux (p : Packer) (l : List Value) (i : Nat) : Except Err (List Nat) :=
  match l with
  | [] => .ok []
  | v :: rest =>
    match packVal p v with
    | .error e => .error (if e.isBin then .elemTag i e else e)
    | .ok bs => (arrPackAux p rest (i + 1)).map (fun t => bs ++ t)
termination_by (sizeOf p, 1 + sizeOf l)

/-- `Packable.dump`: write each field in declaration order (wrapping
`Binstruct3Error`s into `FieldError`s naming the field), then pad the
offset from the record start to the next multiple of the alignment with
zero bytes. -/
def dumpFields (align : Nat) (fields : List FieldSpec) (vs : List Value) (pos : Nat) :
    Except Err (List Nat) :=
  match fields, vs with
  | [], _ => .ok []
  | _ :: _, [] => .error .typeErr
  | (name, p) :: rest, v :: vtl =>
    match packVal p v with
    | .error e => .error (if e.isBin then .fieldTag name e else e)
    | .ok bs =>
      let mid := pos + bs.length
      let skip := (align - mid % align) % align
      (dumpFields align rest vtl (mid + skip)).map
        (fun tail => bs ++ List.replicate skip 0 ++ tail)
termination_by (sizeOf fields, 1 + sizeOf vs)

end

/-! ### Sizing (`byte_size` across the packer classes, `Packable.byte_size`) -/

mutual

/-- `byte_size(obj)`: constant for the fixed-width codecs;
`ArrayPacker.byte_size` sums over the elements actually present in the
value; `StructPacker.byte_size` is the nested instance's own aligned
walk. -/
def byteSizeVal : Packer → Value → Nat
  | .raw _ w _, _ => w
  | .chars sz _ _, _ => sz
  | .arr p _, v =>
    match v with
    | .list l => sumSizes p l
    | .str s => sumSizes p (s.map (fun code => Value.str [code]))
    | _ => 0
  | .struc align fields, v =>
    match v with
    | .struct vs => sizeFields align fields vs 0
    | _ => 0
termination_by p _ => (sizeOf p, 0)

/-- `sum(packer.byte_size(x) for x in obj)`. -/
def sumSizes (p : Packer) : List Value → Nat
  | [] => 0
  | v :: rest => byteSizeVal p v + sumSizes p rest
termination_by l => (sizeOf p, 1 + sizeOf l)

/-- `Packable.byte_size`: accumulate each field's packed size and pad the
running total to the next multiple of the alignment after every field,
trailing padding included; no stream is involved. -/
def sizeFields (align : Nat) (fields : List FieldSpec) (vs : List Value) (acc : Nat) : Nat :=
  match fields, vs with
  | [], _ => acc
  | _ :: _, [] => acc
  | (_, p) :: rest, v :: vtl =>
    let r := acc + byteSizeVal p v
    sizeFields align rest vtl (r + (align - r % align) % align)
termination_by (sizeOf fields, 1 + sizeOf vs)

end

/-! ### Unpacking (`unpack` across the packer classes, `Packable.reload`) -/

mutual

/-- `unpack`.  `ArrayPacker.unpack` reads `cnt` elements, tagging
element-level `Binstruct3Error`s with the index.  `StructPacker.unpack`
is `cls.load(stream)`: construct a fresh default instance (validating
every default) and `reload` it from the stream. -/
def unpackVal : Packer → List Nat → Except Err (Value × List Nat)
  | .raw signed w _, s => rawUnpack signed w s
  | .chars sz terminate _, s => charsUnpack sz terminate s
  | .arr p c, s => (arrUnpackAux p c s 0).map (fun (l, r) => (.list l, r))
  | .struc align fields, s =>
    match checkDefaults fields with
    | .error e => .error e
    | .ok _ => (reloadFields align fields s 0).map (fun (vs, r) => (.struct vs, r))
termination_by p _ => (sizeOf p, 0)

/-- The element loop of `ArrayPacker.unpack`. -/
def arrUnpackAux (p : Packer) (c : Nat) (s : List Nat) (i : Nat) :
    Except Err (List Value × List Nat) :=
  match c with
  | 0 => .ok ([], s)
  | c' + 1 =>
    match unpackVal p s with
    | .error e => .error (if e.isBin then .elemTag i e else e)
    | .ok (v, s₁) => (arrUnpackAux p c' s₁ (i + 1)).map (fun (l, r) => (v :: l, r))
termination_by (sizeOf p, 1 + c)

/-- `Packable.reload` with a live stream: for each field, `fill` unpacks
a value (wrapping `Binstruct3Error`s into `FieldError`s) and assigns it
through `__set__` (validating, with the double `FieldError` wrap on
failure), then the engine skips `(align - offset % align) % align` bytes
of padding — `stream.read` simply returns fewer bytes near the end, so
the skip consumes at most what is left.  `pos` is the offset from the
record start. -/
def reloadFields (align : Nat) (fields : List FieldSpec) (s : List Nat) (pos : Nat) :
    Except Err (List Value × List Nat) :=
  match fields with
  | [] => .ok ([], s)
  | (name, p) :: rest =>
    match unpackVal p s with
    | .error e => .error (if e.isBin then .fieldTag name e else e)
    | .ok (v, s₁) =>
      match validateVal p v with
      | .error e => .error (if e.isBin then .fieldTag name (.fieldTag name e) else e)
      | .ok _ =>
        let mid := pos + (s.length - s₁.length)
        let skip := (align - mid % align) % align
        let k := min skip s₁.length
        (reloadFields align rest (s₁.drop k) (mid + k)).map
          (fun (vs, r) => (v :: vs, r))
termination_by (sizeOf fields, 1)

end

/-! ### The `Packable` interface (`dump`, `to_bytes`, `load`, `reload`) -/

/-- `Packable.to_bytes`/`dump` of an instance of a `@packable(align)`
class whose fields hold the values `vs`. -/
def pyDump (align : Nat) (fields : List FieldSpec) (vs : List Value) : Except Err (List Nat) :=
  dumpFields align fields vs 0

/-- `Packable.byte_size()`. -/
def pyByteSize (align : Nat) (fields : List FieldSpec) (vs : List Value) : Nat :=
  sizeFields align fields vs 0

/-- One iteration of `Packable.load`: `obj = cls()` (fill and validate
every default) followed by `obj.reload(stream)`.  A `None` stream fills
every field from its default and touches no bytes. -/
def loadInst (align : Nat) (fields : List FieldSpec) :
    Option (List Nat) → Except Err (List Value × Option (List Nat))
  | Option.none => (reloadNone fields).map (fun vs => (vs, Option.none))
  | Option.some s =>
    match checkDefaults fields with
    | .error e => .error e
    | .ok _ => (reloadFields align fields s 0).map (fun (vs, r) => (vs, Option.some r))

/-- The `for i in range(count)` loop of `Packable.load`: consecutive
instances read from the same stream. -/
def loadSeq (align : Nat) (fields : List FieldSpec) :
    Nat → Option (List Nat) → Except Err (List (List Value) × Option (List Nat))
  | 0, s => .ok ([], s)
  | n + 1, s =>
    match loadInst align fields s with
    | .error e => .error e
    | .ok (vs, s₁) => (loadSeq align fields n s₁).map (fun (l, r) => (vs :: l, r))

/-- The `count` argument of `Packable.load` as Python sees it: an actual
`int`, or a value of any other type. -/
inductive PyCount where
  | int : Int → PyCount
  | notInt : PyCount

/-- What `Packable.load` returns: `ret[0]` when `count == 1`, the whole
list otherwise. -/
inductive LoadRet where
  | one : List Value → LoadRet
  | many : List (List Value) → LoadRet

/-- `Packable.load(stream, count)`: wrap the buffer (no read), reject a
non-`int` or `< 1` count with a `ValueError` before any I/O, then read
`count` consecutive instances; a count of exactly 1 returns the single
instance. -/
def pyLoad (align : Nat) (fields : List FieldSpec) (s : Option (List Nat)) :
    PyCount → Except Err (LoadRet × Option (List Nat))
  | .notInt => .error .countErr
  | .int n =>
    if n < 1 then .error .countErr
    else
      match loadSeq align fields n.toNat s with
      | .error e => .error e
      | .ok (l, r) => .ok (if n = 1 then .one (l.headD []) else .many l, r)

/-- `Packable.reload`: with a stream, the aligned field walk; with `None`,
a pure default fill. -/
def pyReload (align : Nat) (fields : List FieldSpec) :
    Option (List Nat) → Except Err (List Value × Option (List Nat))
  | Option.none => (reloadNone fields).map (fun vs => (vs, Option.none))
  | Option.some s => (reloadFields align fields s 0).map (fun (vs, r) => (vs, Option.some r))

/-! ### Field assignment (`PackerField.__set__`) -/

/-- `PackerField.__set__`: validate, then store.  The result is the pair
of (value left in the storage slot, exception raised if any): on a
`Binstruct3Error` from the validator the slot keeps its old value and a
`FieldError` naming the field is raised; on a plain Python error from the
validator the slot also keeps its old value but the error escapes
unwrapped; on success the new value is stored. -/
def pySet (p : Packer) (name : String) (slot : Value) (v : Value) : Value × Option Err :=
  match validateVal p v with
  | .error e => (slot, Option.some (if e.isBin then .fieldTag name e else e))
  | .ok _ => (v, Option.none)

/-! ### Reference semantics of `ArrayPacker.default_value`

`default_value` evaluates `self._packer.default_value()` once and builds
`[that] * cnt` — a list of `cnt` references to the SAME object.  When the
element default is itself a mutable Python object (a list, as produced by
a nested array packer, or a packable instance) the slots alias each
other.  A minimal heap of list objects makes that observable. -/

/-- A heap of Python list objects, addressed by allocation order. -/
structure Heap where
  cells : List (List Value)

/-- Allocate a fresh list object, returning its address. -/
def Heap.alloc (h : Heap) (contents : List Value) : Heap × Nat :=
  (⟨h.cells ++ [contents]⟩, h.cells.length)

/-- Read the list object at an address. -/
def Heap.read (h : Heap) (a : Nat) : List Value :=
  h.cells.getD a []

/-- Overwrite the list object at an address. -/
def Heap.write (h : Heap) (a : Nat) (contents : List Value) : Heap :=
  ⟨h.cells.set a contents⟩

/-- `ArrayPacker.default_value` when the element default is a mutable
list: `[self._packer.default_value()] * self._cnt` allocates the element
default ONCE and replicates the reference. -/
def arrayDefaultShared (h : Heap) (elemDefault : List Value) (cnt : Nat) : Heap × List Nat :=
  let (h₁, a) := h.alloc elemDefault
  (h₁, List.replicate cnt a)

/-- Mutating index `idx` of the array slot behind reference `a` (Python
`arr[i][idx] = x`). -/
def mutateElem (h : Heap) (a : Nat) (idx : Nat) (x : Value) : Heap :=
  h.write a ((h.read a).set idx x)

/-! ### The spec's reading of `byte_size` -/

/-- Modelled from the spec: the next multiple of the alignment unit at or
above an offset. -/
def padTo (align n : Nat) : Nat :=
  ((n + align - 1) / align) * align

/-- Modelled from the spec: "byte_size() equals the sum, over fields in
declaration order, of each field's packed size plus zero-padding of the
running offset up to the next multiple of the schema's alignment unit
(including trailing padding)". -/
def specByteSize (align : Nat) (fieldSizes : List Nat) : Nat :=
  fieldSizes.foldl (fun off sz => padTo align (off + sz)) 0

/-- The per-field packed sizes of an instance, in declaration order. -/
def fieldSizes : List FieldSpec → List Value → List Nat
  | [], _ => []
  | _ :: _, [] => []
  | (_, p) :: rest, v :: vtl => byteSizeVal p v :: fieldSizes rest vtl

/-! ### Values a packer represents exactly

The round-trip property cannot hold for every dumpable instance (NUL
characters in text values are cut off on decode, over-long text values
are silently truncated, under-filled arrays silently shrink), so it is
proved for values the byte layout represents exactly. -/

mutual

/-- A value the packer encodes into bytes that decode back to the same
value: ints within the format's range (widths are the real formats',
`≥ 1`); text whose codes are non-NUL bytes and fit the buffer; arrays of
exactly `cnt` exact elements; instances (of a schema with a positive
alignment and constructible defaults) whose field values are all exact. -/
def goodVal : Packer → Value → Bool
  | .raw signed w _, v =>
    match v with
    | .int i => decide (1 ≤ w) && inRange signed w i
    | _ => false
  | .chars sz _ _, v =>
    match v with
    | .str s => decide (s.length ≤ sz) && s.all (fun c => decide (0 < c) && decide (c < 256))
    | _ => false
  | .arr p c, v =>
    match v with
    | .list l => decide (l.length = c) && goodList p l
    | _ => false
  | .struc align fields, v =>
    match v with
    | .struct vs =>
      decide (1 ≤ align) && goodFields fields vs &&
        (match checkDefaults fields with
         | .ok _ => true
         | .error _ => false)
    | _ => false
termination_by p _ => (sizeOf p, 0)

/-- Every element of an array value is exact. -/
def goodList (p : Packer) : List Value → Bool
  | [] => true
  | v :: rest => goodVal p v && goodList p rest
termination_by l => (sizeOf p, 1 + sizeOf l)

/-- One exact value per field, in declaration order. -/
def goodFields : List FieldSpec → List Value → Bool
  | [], [] => true
  | (_, p) :: rest, v :: vtl => goodVal p v && goodFields rest vtl
  | _, _ => false
termination_by fields vs => (sizeOf fields, 1 + sizeOf vs)

end

/-! ## Lemmas -/

theorem leBytes_length (w v : Nat) : (leBytes w v).length = w := by
  induction w generalizing v with
  | zero => rfl
  | succ w ih => simp [leBytes, ih]

theorem leVal_leBytes (w v : Nat) (h : v < 2 ^ (8 * w)) : leVal (leBytes w v) = v := by
  induction w generalizing v with
  | zero => simp [leBytes, leVal]; omega
  | succ w ih =>
    have hdiv : v / 256 < 2 ^ (8 * w) := by
      have h2 : 2 ^ (8 * (w + 1)) = 2 ^ (8 * w) * 256 := by
        rw [show 8 * (w + 1) = 8 * w + 8 by ring, pow_add]
        norm_num
      rw [Nat.div_lt_iff_lt_mul (by norm_num : 0 < 256)]
      omega
    simp only [leBytes, leVal, ih (v / 256) hdiv]
    omega

theorem pad_formula (a n : Nat) (ha : 1 ≤ a) :
    n + (a - n % a) % a = padTo a n := by
  have hlt : n % a < a := Nat.mod_lt _ ha
  have hdm : a * (n / a) + n % a = n := Nat.div_add_mod n a
  unfold padTo
  rcases Nat.eq_zero_or_pos (n % a) with h0 | hpos
  · have hn : a * (n / a) = n := by omega
    have hq : (n + a - 1) / a = n / a := by
      have hsplit : n + a - 1 = a * (n / a) + (a - 1) := by omega
      rw [hsplit, Nat.mul_add_div ha, Nat.div_eq_of_lt (show a - 1 < a by omega),
        Nat.add_zero]
    rw [hq, h0, Nat.sub_zero, Nat.mod_self, Nat.add_zero, Nat.mul_comm (n / a) a, hn]
  · have hsub : (a - n % a) % a = a - n % a := Nat.mod_eq_of_lt (by omega)
    have hq : (n + a - 1) / a = n / a + 1 := by
      have hsplit : n + a - 1 = a * (n / a + 1) + (n % a - 1) := by
        rw [Nat.mul_add, Nat.mul_one]; omega
      rw [hsplit, Nat.mul_add_div ha, Nat.div_eq_of_lt (show n % a - 1 < a by omega),
        Nat.add_zero]
    rw [hq, hsub, Nat.add_mul, Nat.one_mul, Nat.mul_comm (n / a) a]
    omega

theorem takeWhile_append_replicate (p : Nat → Bool) (s : List Nat) (k : Nat)
    (hs : ∀ c ∈ s, p c = true) (h0 : p 0 = false) :
    (s ++ List.replicate k 0).takeWhile p = s := by
  induction s with
  | nil =>
    cases k with
    | zero => rfl
    | succ k =>
      rw [List.nil_append, List.replicate_succ, List.takeWhile_cons_of_neg (by simp [h0])]
  | cons c t ih =>
    have hc : p c = true := hs c (by simp)
    rw [List.cons_append, List.takeWhile_cons_of_pos hc,
      ih (fun x hx => hs x (by simp [hx]))]

theorem dropWhile_replicate_zeros (k : Nat) (l : List Nat) :
    (List.replicate k 0 ++ l).dropWhile (fun c => c = 0) = l.dropWhile (fun c => c = 0) := by
  induction k with
  | zero => rfl
  | succ k ih => simp [List.replicate_succ, List.dropWhile_cons, ih]

theorem dropWhile_eq_self_of_nonzero (l : List Nat) (h : ∀ c ∈ l, c ≠ 0) :
    l.dropWhile (fun c => c = 0) = l := by
  cases l with
  | nil => rfl
  | cons c t =>
    have hc : c ≠ 0 := h c (by simp)
    simp [List.dropWhile_cons, hc]

theorem stripTrailingZeros_append (s : List Nat) (k : Nat) (h : ∀ c ∈ s, c ≠ 0) :
    stripTrailingZeros (s ++ List.replicate k 0) = s := by
  unfold stripTrailingZeros
  rw [List.reverse_append, List.reverse_replicate, dropWhile_replicate_zeros,
    dropWhile_eq_self_of_nonzero _ (fun c hc => h c (List.mem_reverse.mp hc)),
    List.reverse_reverse]

/-! ### Round-trip of the scalar codec -/

theorem raw_roundtrip (signed : Bool) (w : Nat) (i : Int)
    (hw : 1 ≤ w) (hr : inRange signed w i = true) :
    rawValidate signed w (Value.int i) = .ok () ∧
    ∃ bs, rawPack signed w (Value.int i) = .ok bs ∧ bs.length = w ∧
      ∀ rest, rawUnpack signed w (bs ++ rest) = .ok (Value.int i, rest) := by
  have hBpos : (0 : Int) < 2 ^ (8 * w) := by positivity
  have hBB : (2 : Int) ^ (8 * w) = 2 * 2 ^ (8 * w - 1) := by
    have h8 : 8 * w = (8 * w - 1) + 1 := by omega
    calc (2 : Int) ^ (8 * w) = 2 ^ ((8 * w - 1) + 1) := by rw [← h8]
      _ = 2 * 2 ^ (8 * w - 1) := by rw [pow_succ]; ring
  have hcastB2 : ((2 ^ (8 * w - 1) : Nat) : Int) = (2 : Int) ^ (8 * w - 1) := by
    push_cast; ring
  have hmod : 0 ≤ i % 2 ^ (8 * w) := Int.emod_nonneg i (by omega)
  have hmodlt : i % 2 ^ (8 * w) < 2 ^ (8 * w) := Int.emod_lt_of_pos i hBpos
  set m : Nat := (i % 2 ^ (8 * w)).toNat with hm
  have hmcast : (m : Int) = i % 2 ^ (8 * w) := Int.toNat_of_nonneg hmod
  have hmlt : m < 2 ^ (8 * w) := by
    have hc : ((m : Int)) < ((2 ^ (8 * w) : Nat) : Int) := by
      rw [hmcast]; push_cast; exact hmodlt
    exact_mod_cast hc
  have hrange : rawMin signed w ≤ i ∧ i < rawMax signed w := by
    simpa [inRange] using hr
  refine ⟨by simp [rawValidate, hr], leBytes w m, by simp [rawPack, hr],
    leBytes_length w m, ?_⟩
  intro rest
  have hlen : (leBytes w m).length = w := leBytes_length w m
  have htake : (leBytes w m ++ rest).take w = leBytes w m := by
    have h := List.take_left (leBytes w m) rest
    rw [hlen] at h; exact h
  have hdrop : (leBytes w m ++ rest).drop w = rest := by
    have h := List.drop_left (leBytes w m) rest
    rw [hlen] at h; exact h
  have hlen2 : (leBytes w m ++ rest).length = w + rest.length := by simp [hlen]
  unfold rawUnpack
  rw [if_pos (by rw [hlen2]; omega)]
  simp only [htake, hdrop, leVal_leBytes w m hmlt]
  cases signed with
  | false =>
    have h0 : 0 ≤ i := by simpa [rawMin] using hrange.1
    have hlt : i < 2 ^ (8 * w) := by simpa [rawMax] using hrange.2
    have hmi : (m : Int) = i := by rw [hmcast, Int.emod_eq_of_lt h0 hlt]
    rw [if_neg (by simp), hmi]
  | true =>
    have hlo : -(2 ^ (8 * w - 1)) ≤ i := by simpa [rawMin] using hrange.1
    have hhi : i < 2 ^ (8 * w - 1) := by simpa [rawMax] using hrange.2
    rcases le_or_lt 0 i with hpos | hneg
    · have hmi : (m : Int) = i := by
        rw [hmcast, Int.emod_eq_of_lt hpos (by omega)]
      have hcond : ¬ (2 ^ (8 * w - 1) ≤ m) := by
        intro hc
        have hci : ((2 ^ (8 * w - 1) : Nat) : Int) ≤ (m : Int) := by exact_mod_cast hc
        rw [hcastB2, hmi] at hci
        omega
      rw [if_neg (by simp [hcond]), hmi]
    · have heq : i % 2 ^ (8 * w) = i + 2 ^ (8 * w) := by
        have h1 : 0 ≤ i + 2 ^ (8 * w) := by omega
        have h2 : i + 2 ^ (8 * w) < 2 ^ (8 * w) := by omega
        calc i % 2 ^ (8 * w) = (i + 2 ^ (8 * w) * 1) % 2 ^ (8 * w) := by
              rw [Int.add_mul_emod_self_left]
          _ = i + 2 ^ (8 * w) := by
              rw [Int.mul_one, Int.emod_eq_of_lt h1 h2]
      have hmi : (m : Int) = i + 2 ^ (8 * w) := by rw [hmcast, heq]
      have hcond : 2 ^ (8 * w - 1) ≤ m := by
        have hci : ((2 ^ (8 * w - 1) : Nat) : Int) ≤ (m : Int) := by
          rw [hcastB2, hmi]; omega
        exact_mod_cast hci
      rw [if_pos (by simp [hcond])]
      rw [show ((m : Int) - 2 ^ (8 * w)) = i by rw [hmi]; ring]

/-! ### Round-trip of the text codec -/

theorem chars_roundtrip (sz : Nat) (terminate : Bool) (s : List Nat)
    (hlen : s.length ≤ sz) (hall : ∀ c ∈ s, 0 < c ∧ c < 256) :
    charsValidate sz (Value.str s) = .ok () ∧
    ∃ bs, charsPack sz (Value.str s) = .ok bs ∧ bs.length = sz ∧
      ∀ rest, charsUnpack sz terminate (bs ++ rest) = .ok (Value.str s, rest) := by
  have hall256 : s.all (fun c => c < 256) = true := by
    simp only [List.all_eq_true, decide_eq_true_eq]
    exact fun c hc => (hall c hc).2
  have hnz : ∀ c ∈ s, c ≠ 0 := fun c hc => Nat.pos_iff_ne_zero.mp (hall c hc).1
  have hEnc : charsEncode sz s = Option.some (s ++ List.replicate (sz - s.length) 0) := by
    unfold charsEncode
    rw [if_pos hall256]
    rcases lt_or_eq_of_le hlen with hlt | heq
    · rw [if_pos hlt]
      exact congrArg Option.some (List.take_of_length_le (by simp; omega))
    · rw [if_neg (by omega)]
      have h0 : sz - s.length = 0 := by omega
      rw [h0, List.replicate_zero, List.append_nil]
      exact congrArg Option.some (List.take_of_length_le (by omega))
  refine ⟨by simp [charsValidate, hall256], s ++ List.replicate (sz - s.length) 0,
    by simp [charsPack, hEnc], by simp; omega, ?_⟩
  intro rest
  have hbs : (s ++ List.replicate (sz - s.length) 0).length = sz := by simp; omega
  have htake : ((s ++ List.replicate (sz - s.length) 0) ++ rest).take sz
      = s ++ List.replicate (sz - s.length) 0 := by
    have h := List.take_left (s ++ List.replicate (sz - s.length) 0) rest
    rw [hbs] at h; exact h
  have hdrop : ((s ++ List.replicate (sz - s.length) 0) ++ rest).drop sz = rest := by
    have h := List.drop_left (s ++ List.replicate (sz - s.length) 0) rest
    rw [hbs] at h; exact h
  have hlen2 : ((s ++ List.replicate (sz - s.length) 0) ++ rest).length
      = sz + rest.length := by simp; omega
  unfold charsUnpack
  rw [if_pos (by rw [hlen2]; omega)]
  rw [htake, hdrop]
  unfold charsDecode
  cases terminate with
  | false =>
    rw [if_neg (by simp), stripTrailingZeros_append s _ hnz]
  | true =>
    rw [if_pos rfl]
    unfold stripAfterZero
    rw [takeWhile_append_replicate _ s _ (fun c hc => by simp [hnz c hc]) (by simp)]

/-! ### Round-trip of arbitrary packers -/

/-- The packer encodes every exact value into bytes from which `unpack`
recovers exactly that value and leaves the rest of the stream intact, and
every exact value passes validation. -/
def RoundTrip (p : Packer) : Prop :=
  ∀ v, goodVal p v = true →
    validateVal p v = Except.ok () ∧
    ∃ bs, packVal p v = Except.ok bs ∧
      ∀ rest, unpackVal p (bs ++ rest) = Except.ok (v, rest)

theorem arr_aux_roundtrip (p : Packer) (hp : RoundTrip p) :
    ∀ (l : List Value), goodList p l = true →
      arrValidateAux p l = .ok () ∧
      ∃ bs, (∀ i, arrPackAux p l i = .ok bs) ∧
        ∀ i rest, arrUnpackAux p l.length (bs ++ rest) i = .ok (l, rest) := by
  intro l
  induction l with
  | nil =>
    intro _
    refine ⟨by simp [arrValidateAux], [], fun i => by simp [arrPackAux],
      fun i rest => by simp [arrUnpackAux]⟩
  | cons v t ih =>
    intro hg
    rw [goodList] at hg
    obtain ⟨hgv, hgt⟩ := Bool.and_eq_true_iff.mp hg
    obtain ⟨hval, bs, hpack, hunpack⟩ := hp v hgv
    obtain ⟨hvalt, bst, hpackt, hunpackt⟩ := ih hgt
    refine ⟨?_, bs ++ bst, ?_, ?_⟩
    · rw [arrValidateAux, hval, hvalt]
    · intro i
      rw [arrPackAux, hpack, hpackt (i + 1)]
      rfl
    · intro i rest
      show arrUnpackAux p (t.length + 1) ((bs ++ bst) ++ rest) i = .ok (v :: t, rest)
      rw [arrUnpackAux, List.append_assoc, hunpack (bst ++ rest)]
      simp only [hunpackt (i + 1) rest, Except.map]

theorem arr_roundtrip (p : Packer) (c : Nat) (hp : RoundTrip p) :
    RoundTrip (Packer.arr p c) := by
  intro v hg
  cases v with
  | pynone => simp [goodVal] at hg
  | int i => simp [goodVal] at hg
  | str s => simp [goodVal] at hg
  | struct vs => simp [goodVal] at hg
  | list l =>
    rw [goodVal] at hg
    obtain ⟨hlen', hgl⟩ := Bool.and_eq_true_iff.mp hg
    have hlen : l.length = c := by simpa using hlen'
    obtain ⟨hval, bs, hpack, hunpack⟩ := arr_aux_roundtrip p hp l hgl
    refine ⟨?_, bs, ?_, ?_⟩
    · rw [validateVal]
      rw [if_pos hlen, hval]
    · show packVal (Packer.arr p c) (Value.list l) = .ok bs
      rw [packVal]
      rw [show l.take c = l from by rw [← hlen]; exact List.take_length l]
      exact hpack 0
    · intro rest
      show unpackVal (Packer.arr p c) (bs ++ rest) = .ok (Value.list l, rest)
      rw [unpackVal, ← hlen]
      simp only [hunpack 0 rest, Except.map]

theorem fields_roundtrip (align : Nat) (_ha : 1 ≤ align) :
    ∀ (fields : List FieldSpec), (∀ f ∈ fields, RoundTrip f.2) →
      ∀ (vs : List Value), goodFields fields vs = true → ∀ (pos : Nat),
        ∃ B, dumpFields align fields vs pos = .ok B ∧
          ∀ rest, reloadFields align fields (B ++ rest) pos = .ok (vs, rest) := by
  intro fields
  induction fields with
  | nil =>
    intro _ vs hg pos
    cases vs with
    | cons v vtl => simp [goodFields] at hg
    | nil =>
      exact ⟨[], by simp [dumpFields], fun rest => by simp [reloadFields]⟩
  | cons f rest ih =>
    intro hps vs hg pos
    obtain ⟨nm, p⟩ := f
    cases vs with
    | nil => simp [goodFields] at hg
    | cons v vtl =>
      rw [goodFields] at hg
      obtain ⟨hgv, hgt⟩ := Bool.and_eq_true_iff.mp hg
      have hp : RoundTrip p := hps (nm, p) (by simp)
      obtain ⟨hval, bs, hpack, hunpack⟩ := hp v hgv
      obtain ⟨B', hdump', hreload'⟩ :=
        ih (fun g hgm => hps g (by simp [hgm])) vtl hgt
          (pos + bs.length + (align - (pos + bs.length) % align) % align)
      set skip := (align - (pos + bs.length) % align) % align with hskip
      refine ⟨bs ++ List.replicate skip 0 ++ B', ?_, ?_⟩
      · show dumpFields align ((nm, p) :: rest) (v :: vtl) pos = _
        rw [dumpFields, hpack]
        simp only [← hskip, hdump', Except.map]
      · intro tail
        show reloadFields align ((nm, p) :: rest) ((bs ++ List.replicate skip 0 ++ B') ++ tail)
            pos = .ok (v :: vtl, tail)
        rw [reloadFields, List.append_assoc, List.append_assoc,
          hunpack (List.replicate skip 0 ++ (B' ++ tail))]
        have hconsumed : (bs ++ (List.replicate skip 0 ++ (B' ++ tail))).length
            - (List.replicate skip 0 ++ (B' ++ tail)).length = bs.length := by
          simp
        have hrem : (List.replicate skip 0 ++ (B' ++ tail)).length
            = skip + (B' ++ tail).length := by simp
        have hmin : min skip (List.replicate skip 0 ++ (B' ++ tail)).length = skip := by
          rw [hrem]; omega
        have hskipdrop : (List.replicate skip 0 ++ (B' ++ tail)).drop skip = B' ++ tail := by
          have h := List.drop_left (List.replicate skip 0) (B' ++ tail)
          rw [List.length_replicate] at h; exact h
        simp only [hval, hconsumed, ← hskip, hmin, hskipdrop, hreload' tail, Except.map]

theorem packer_roundtrip_aux : ∀ (n : Nat) (p : Packer), sizeOf p ≤ n → RoundTrip p := by
  intro n
  induction n with
  | zero =>
    intro p hp
    exfalso
    cases p <;> simp_arith at hp
  | succ n ih =>
    intro p hp
    match p with
    | .raw signed w d =>
      intro v hg
      cases v with
      | pynone => simp [goodVal] at hg
      | str s => simp [goodVal] at hg
      | list l => simp [goodVal] at hg
      | struct vs => simp [goodVal] at hg
      | int i =>
        rw [goodVal] at hg
        obtain ⟨hw', hri⟩ := Bool.and_eq_true_iff.mp hg
        obtain ⟨h1, bs, h2, _, h3⟩ := raw_roundtrip signed w i (by simpa using hw') hri
        refine ⟨by rw [validateVal]; exact h1, bs, by rw [packVal]; exact h2,
          fun rest => by rw [unpackVal]; exact h3 rest⟩
    | .chars sz terminate d =>
      intro v hg
      cases v with
      | pynone => simp [goodVal] at hg
      | int i => simp [goodVal] at hg
      | list l => simp [goodVal] at hg
      | struct vs => simp [goodVal] at hg
      | str s =>
        rw [goodVal] at hg
        obtain ⟨hl', hcs⟩ := Bool.and_eq_true_iff.mp hg
        have hcs' : ∀ c ∈ s, 0 < c ∧ c < 256 := by
          simp only [List.all_eq_true, Bool.and_eq_true, decide_eq_true_eq] at hcs
          exact hcs
        obtain ⟨h1, bs, h2, _, h3⟩ := chars_roundtrip sz terminate s (by simpa using hl') hcs'
        refine ⟨by rw [validateVal]; exact h1, bs, by rw [packVal]; exact h2,
          fun rest => by rw [unpackVal]; exact h3 rest⟩
    | .arr p' c =>
      have hsz : sizeOf p' ≤ n := by
        simp_arith at hp; omega
      exact arr_roundtrip p' c (ih p' hsz)
    | .struc align fs =>
      intro v hg
      cases v with
      | pynone => simp [goodVal] at hg
      | int i => simp [goodVal] at hg
      | list l => simp [goodVal] at hg
      | str s => simp [goodVal] at hg
      | struct vs =>
        have hfs : ∀ f ∈ fs, RoundTrip f.2 := by
          intro f hf
          apply ih
          have h1 : sizeOf f < sizeOf fs := List.sizeOf_lt_of_mem hf
          have h2 : sizeOf f.2 < sizeOf f := by
            obtain ⟨a, b⟩ := f; simp_arith
          have h3 : sizeOf (Packer.struc align fs) ≤ n + 1 := hp
          simp_arith at h3
          omega
        rw [goodVal] at hg
        obtain ⟨hg1, hg2⟩ := Bool.and_eq_true_iff.mp hg
        obtain ⟨ha', hgf⟩ := Bool.and_eq_true_iff.mp hg1
        have ha : 1 ≤ align := by simpa using ha'
        have hcd : checkDefaults fs = .ok () := by
          revert hg2
          match hcdm : checkDefaults fs with
          | .ok u => intro _; cases u; rfl
          | .error e => intro h2; simp at h2
        obtain ⟨B, hdump, hreload⟩ := fields_roundtrip align ha fs hfs vs hgf 0
        refine ⟨?_, B, ?_, ?_⟩
        · rw [validateVal]
        · show packVal (Packer.struc align fs) (Value.struct vs) = .ok B
          rw [packVal]
          exact hdump
        · intro rest
          show unpackVal (Packer.struc align fs) (B ++ rest) = .ok (Value.struct vs, rest)
          rw [unpackVal, hcd]
          simp only [hreload rest, Except.map]

/-- Every packer the library can build round-trips its exact values. -/
theorem packer_roundtrip (p : Packer) : RoundTrip p :=
  packer_roundtrip_aux (sizeOf p) p le_rfl

/-! ### Batch loading and default reloading -/

theorem loadSeq_length (align : Nat) (fields : List FieldSpec) :
    ∀ (n : Nat) (s : Option (List Nat)) (l : List (List Value)) (r : Option (List Nat)),
      loadSeq align fields n s = .ok (l, r) → l.length = n := by
  intro n
  induction n with
  | zero =>
    intro s l r h
    unfold loadSeq at h
    obtain ⟨h1, h2⟩ := Prod.mk.injEq .. ▸ Except.ok.inj h
    rw [← h1]
    rfl
  | succ n ih =>
    intro s l r h
    unfold loadSeq at h
    cases hli : loadInst align fields s with
    | error e => rw [hli] at h; simp at h
    | ok pair =>
      obtain ⟨vs, s₁⟩ := pair
      simp only [hli] at h
      cases hls : loadSeq align fields n s₁ with
      | error e => rw [hls] at h; simp [Except.map] at h
      | ok q =>
        obtain ⟨l', r'⟩ := q
        simp only [hls, Except.map, Except.ok.injEq, Prod.mk.injEq] at h
        rw [← h.1]
        simp [ih s₁ l' r' hls]

theorem reloadNone_eq_defaults :
    ∀ (fields : List FieldSpec), checkDefaults fields = .ok () →
      reloadNone fields = .ok (defaultsList fields) := by
  intro fields
  induction fields with
  | nil => intro _; rfl
  | cons f fs ih =>
    intro h
    obtain ⟨nm, p⟩ := f
    cases hfd : fillDefault nm p with
    | error e =>
      exfalso
      unfold checkDefaults reloadNone at h
      rw [hfd] at h
      simp [Except.map] at h
    | ok v =>
      have hv : v = defaultVal p := by
        unfold fillDefault at hfd
        simp only [] at hfd
        cases hvv : validateVal p (defaultVal p) with
        | error e => rw [hvv] at hfd; simp at hfd
        | ok u => rw [hvv] at hfd; simp at hfd; exact hfd.symm
      cases hrn : reloadNone fs with
      | error e =>
        exfalso
        unfold checkDefaults reloadNone at h
        rw [hfd, hrn] at h
        simp [Except.map] at h
      | ok vs =>
        have ihh : checkDefaults fs = .ok () := by
          unfold checkDefaults
          rw [hrn]
          rfl
        have hvs : vs = defaultsList fs := by
          have h2 := ih ihh
          rw [hrn] at h2
          exact Except.ok.inj h2
        show reloadNone ((nm, p) :: fs) = .ok (defaultsList ((nm, p) :: fs))
        unfold reloadNone defaultsList
        rw [hfd, hrn]
        simp [Except.map, hv, hvs]

/-! ### Example schemas (taken from the repository's tests) -/

/-- The `Point`-style schema: two scalar fields with defaults, alignment 1
(widths shrunk to 1 byte to keep the byte strings small). -/
def pointFields : List FieldSpec :=
  [("x", Packer.raw true 1 (Option.some 5)), ("y", Packer.raw true 1 (Option.some 6))]

/-- `@packable(align=8) class A: f1 = int8; f2 = char[6]` — alignment 8,
byte size 16. -/
def exAFields : List FieldSpec :=
  [("f1", Packer.raw true 1 Option.none), ("f2", Packer.chars 6 true Option.none)]

/-- `@packable(align=4) class B: f1 = array(3, A); f2 = int8`. -/
def exBFields : List FieldSpec :=
  [("f1", Packer.arr (Packer.struc 8 exAFields) 3), ("f2", Packer.raw true 1 Option.none)]

/-- `@packable(align=4)` with `int8, int16, int32` fields. -/
def exIntFields : List FieldSpec :=
  [("f1", Packer.raw true 1 Option.none), ("f2", Packer.raw true 2 Option.none),
   ("f3", Packer.raw true 4 Option.none)]

/-- `Packable.byte_size` with any accumulator is the spec's fold of
"pad the running offset up to the next multiple of the alignment after
adding each field's size". -/
theorem sizeFields_foldl (align : Nat) (ha : 1 ≤ align) :
    ∀ (fields : List FieldSpec) (vs : List Value) (acc : Nat),
      sizeFields align fields vs acc
        = (fieldSizes fields vs).foldl (fun off sz => padTo align (off + sz)) acc := by
  intro fields
  induction fields with
  | nil =>
    intro vs acc
    cases vs <;> simp [sizeFields, fieldSizes]
  | cons f rest ih =>
    intro vs acc
    obtain ⟨nm, p⟩ := f
    cases vs with
    | nil => simp [sizeFields, fieldSizes]
    | cons v vtl =>
      simp only [sizeFields, fieldSizes, List.foldl_cons]
      rw [ih vtl]
      congr 1
      exact pad_formula align (acc + byteSizeVal p v) ha

/-! ## Claims -/

/-- C1 (counterexample): the round-trip claim fails as stated.  The
one-field schema `char[4]` (terminate-at-first-zero) dumps the value
`"a\x00b"` successfully to the bytes `61 00 62 00`, but loading those
bytes into a fresh instance yields `"a"`, which differs from the dumped
value. -/
theorem load_dump_not_inverse_on_nul :
    pyDump 1 [("f1", Packer.chars 4 true Option.none)] [Value.str [97, 0, 98]]
      = .ok [97, 0, 98, 0] ∧
    pyLoad 1 [("f1", Packer.chars 4 true Option.none)] (Option.some [97, 0, 98, 0])
      (PyCount.int 1) = .ok (LoadRet.one [Value.str [97]], Option.some []) ∧
    Value.str [97] ≠ Value.str [97, 0, 98] := by
  refine ⟨?_, ?_, by simp⟩
  · simp [pyDump, dumpFields, packVal, charsPack, charsEncode, Err.isBin, Except.map]
  · simp [pyLoad, loadSeq, loadInst, checkDefaults, reloadNone, fillDefault, defaultVal,
      validateVal, charsValidate, reloadFields, unpackVal, charsUnpack, charsDecode,
      stripAfterZero, Err.isBin, Except.map]

/-- C1 (amended): for every schema (alignment ≥ 1, constructible
defaults) and every instance whose field values the byte layout
represents exactly (scalars in range, text values that fit their buffer
with no NUL characters, arrays filled with exactly their count of exact
elements, nested instances recursively exact), dumping succeeds and
loading the dumped bytes into a fresh instance returns exactly the dumped
field values, consuming the whole byte string. -/
theorem dump_load_roundtrip (align : Nat) (fields : List FieldSpec) (vs : List Value)
    (ha : 1 ≤ align) (hg : goodFields fields vs = true)
    (hd : checkDefaults fields = .ok ()) :
    ∃ B, pyDump align fields vs = .ok B ∧
      pyLoad align fields (Option.some B) (PyCount.int 1)
        = .ok (LoadRet.one vs, Option.some []) := by
  obtain ⟨B, hdump, hreload⟩ := fields_roundtrip align ha fields
    (fun f _ => packer_roundtrip f.2) vs hg 0
  refine ⟨B, hdump, ?_⟩
  have hrel := hreload []
  rw [List.append_nil] at hrel
  have hinst : loadInst align fields (Option.some B) = .ok (vs, Option.some []) := by
    simp [loadInst, hd, hrel, Except.map]
  have hseq : loadSeq align fields 1 (Option.some B) = .ok ([vs], Option.some []) := by
    show loadSeq align fields (0 + 1) (Option.some B) = _
    unfold loadSeq
    rw [hinst]
    rfl
  simp only [pyLoad]
  rw [if_neg (by omega)]
  have h1 : (1 : Int).toNat = 1 := rfl
  rw [h1, hseq]
  simp

/-- C1 (amended) at a concrete input: the two-field scalar schema with
alignment 2 and values `(1, 2)`. -/
theorem dump_load_roundtrip_witness :
    ∃ B, pyDump 2 pointFields [Value.int 1, Value.int 2] = .ok B ∧
      pyLoad 2 pointFields (Option.some B) (PyCount.int 1)
        = .ok (LoadRet.one [Value.int 1, Value.int 2], Option.some []) :=
  dump_load_roundtrip 2 pointFields [Value.int 1, Value.int 2] (by omega)
    (by simp [goodFields, goodVal, goodList, pointFields, checkDefaults, reloadNone,
      fillDefault, defaultVal, validateVal, rawValidate, inRange, rawMin, rawMax,
      Err.isBin, Except.map])
    (by simp [pointFields, checkDefaults, reloadNone, fillDefault, defaultVal,
      validateVal, rawValidate, inRange, rawMin, rawMax, Err.isBin, Except.map])

/-- C2: contrary to the claim, `ArrayPacker.pack` does NOT raise on an
under-supplied sequence: the handler constructs the "Incomplete array"
`Binstruct3Error` but never raises it, so packing `[1, 2, 3]` through
`array(4, int8)` silently succeeds with only 3 bytes written, while
`[1, 2, 3, 4]` writes 4 bytes. -/
theorem array_pack_undersupply_silent :
    packVal (Packer.arr (Packer.raw true 1 Option.none) 4)
      (Value.list [Value.int 1, Value.int 2, Value.int 3]) = .ok [1, 2, 3] ∧
    packVal (Packer.arr (Packer.raw true 1 Option.none) 4)
      (Value.list [Value.int 1, Value.int 2, Value.int 3, Value.int 4])
      = .ok [1, 2, 3, 4] := by
  constructor <;>
    simp [packVal, arrPackAux, rawPack, inRange, rawMin, rawMax, leBytes, Err.isBin,
      Except.map]

/-- C3: contrary to the claim, a text packer of byte length 2 encodes the
3-byte string "abc" without error — `struct.pack("2s", ...)` silently
truncates to `"ab"` — and validation accepts the over-long value too. -/
theorem chars_pack_truncates :
    packVal (Packer.chars 2 true Option.none) (Value.str [97, 98, 99]) = .ok [97, 98] ∧
    validateVal (Packer.chars 2 true Option.none) (Value.str [97, 98, 99]) = .ok () := by
  constructor <;> simp [packVal, charsPack, charsEncode, validateVal, charsValidate]

/-- C4: `array(4, int8(5)).default()` does yield four values equal to 5,
but `default_value` replicates ONE reference: for a mutable element
default (two copies of the nested list `[5, 5]`) both slots receive the
same address, and mutating index 0 through slot 0's reference is visible
through slot 1's reference. -/
theorem array_default_shares_one_ref :
    defaultVal (Packer.arr (Packer.raw true 1 (Option.some 5)) 4)
      = Value.list [Value.int 5, Value.int 5, Value.int 5, Value.int 5] ∧
    (arrayDefaultShared ⟨[]⟩ [Value.int 5, Value.int 5] 2).2 = [0, 0] ∧
    Heap.read
      (mutateElem (arrayDefaultShared ⟨[]⟩ [Value.int 5, Value.int 5] 2).1
        ((arrayDefaultShared ⟨[]⟩ [Value.int 5, Value.int 5] 2).2.getD 0 99) 0
        (Value.int 7))
      ((arrayDefaultShared ⟨[]⟩ [Value.int 5, Value.int 5] 2).2.getD 1 99)
      = [Value.int 7, Value.int 5] := by
  refine ⟨by simp [defaultVal, List.replicate], ?_, ?_⟩ <;>
    simp [arrayDefaultShared, Heap.alloc, mutateElem, Heap.read, Heap.write]

/-- C5: `byte_size()` is exactly the spec's stream-free fold — each
field's packed size, the running offset padded up to the next multiple of
the alignment unit after every field (trailing padding included) — and
the two concrete layouts from the claim come out to 12 and 52 (with the
nested `A` at 16). -/
theorem byte_size_spec :
    (∀ (align : Nat) (fields : List FieldSpec) (vs : List Value), 1 ≤ align →
      pyByteSize align fields vs = specByteSize align (fieldSizes fields vs)) ∧
    pyByteSize 4 exIntFields (defaultsList exIntFields) = 12 ∧
    pyByteSize 8 exAFields (defaultsList exAFields) = 16 ∧
    pyByteSize 4 exBFields (defaultsList exBFields) = 52 := by
  refine ⟨fun align fields vs ha => ?_, ?_, ?_, ?_⟩
  · unfold pyByteSize specByteSize
    exact sizeFields_foldl align ha fields vs 0
  all_goals
    simp [pyByteSize, sizeFields, byteSizeVal, sumSizes, defaultsList, defaultVal,
      exIntFields, exAFields, exBFields]

/-- C5 at a concrete input. -/
theorem byte_size_spec_witness :
    pyByteSize 4 exIntFields (defaultsList exIntFields)
      = specByteSize 4 (fieldSizes exIntFields (defaultsList exIntFields)) :=
  byte_size_spec.1 4 exIntFields (defaultsList exIntFields) (by omega)

/-- C6 (counterexample): `validate` and `encode` disagree at `None`:
`RawPacker.validate_value(None)` succeeds by design (fields may be
unset), while `RawPacker.pack(None)` raises. -/
theorem validate_none_pack_fails :
    rawValidate true 1 Value.pynone = .ok () ∧
    rawPack true 1 Value.pynone = .error .structErr :=
  ⟨rfl, rfl⟩

/-- C6 (amended): for every scalar packer and every candidate value OTHER
THAN `None`, validation succeeds exactly when encoding would succeed;
`None` is the one exception (validate passes, encode raises). -/
theorem validate_iff_pack_nonnone (signed : Bool) (w : Nat) (v : Value)
    (h : v ≠ Value.pynone) :
    rawValidate signed w v = .ok () ↔ ∃ bs, rawPack signed w v = .ok bs := by
  cases v with
  | pynone => exact absurd rfl h
  | int i =>
    by_cases hr : inRange signed w i = true
    · simp [rawValidate, rawPack, hr]
    · simp [rawValidate, rawPack, hr]
  | str s => simp [rawValidate, rawPack]
  | list l => simp [rawValidate, rawPack]
  | struct vs => simp [rawValidate, rawPack]

/-- C6 (amended) at a concrete input. -/
theorem validate_iff_pack_witness :
    rawValidate true 1 (Value.int 5) = .ok () ↔
      ∃ bs, rawPack true 1 (Value.int 5) = .ok bs :=
  validate_iff_pack_nonnone true 1 (Value.int 5) (by simp)

/-- C7 (counterexample): `int8(0)` does not get default 0:
`default_val or self._default_val` treats the falsy int 0 as "no default
given", so the configured packer's default is `None`, not `0`. -/
theorem call_zero_default_lost :
    defaultVal (rawCall true 1 Option.none (Option.some 0)) = Value.pynone ∧
    defaultVal (rawCall true 1 Option.none (Option.some 0)) ≠ Value.int 0 := by
  have h : defaultVal (rawCall true 1 Option.none (Option.some 0)) = Value.pynone := by
    simp [rawCall, defaultVal]
  exact ⟨h, by rw [h]; simp⟩

/-- C7 (amended): for every NONZERO caller-specified default `d`, the
configured packer's `default()` returns `d`; for `d = 0` Python's `or`
falls back to the base packer's default. -/
theorem call_nonzero_default_kept (signed : Bool) (w : Nat) (base : Option Int)
    (d : Int) (h : d ≠ 0) :
    defaultVal (rawCall signed w base (Option.some d)) = Value.int d := by
  simp [rawCall, defaultVal, h]

/-- C7 (amended) at a concrete input. -/
theorem call_default_witness :
    defaultVal (rawCall true 1 Option.none (Option.some 5)) = Value.int 5 :=
  call_nonzero_default_kept true 1 Option.none 5 (by decide)

/-- C8 (counterexample): assigning the int 5 to an `array(4, int8)` field
fails — but `ArrayPacker.validate_value` calls `len(5)`, a plain Python
`TypeError`, which `__set__` does not catch, so the caller sees a
`TypeError` rather than a `FieldError`.  The slot still keeps its old
value. -/
theorem set_typeerror_not_fielderror :
    pySet (Packer.arr (Packer.raw true 1 Option.none) 4) "g"
      (Value.list [Value.pynone, Value.pynone, Value.pynone, Value.pynone]) (Value.int 5)
      = (Value.list [Value.pynone, Value.pynone, Value.pynone, Value.pynone],
          Option.some Err.typeErr) ∧
    (∀ name e, Err.typeErr ≠ Err.fieldTag name e) := by
  constructor
  · simp [pySet, validateVal, Err.isBin]
  · intro name e
    simp

/-- C8 (amended): `__set__` validates BEFORE storing: every failed
assignment leaves the slot's previous value in place; when the validator
raises a library error (`Binstruct3Error` — scalar range/type failures
and array size mismatches) the caller sees a `FieldError` naming the
field, while a plain Python error from the validator (the `TypeError`
from `len()` on a non-sequence assigned to an array field, or the
`AttributeError`/`UnicodeEncodeError` from `CharsPacker.validate_value`
on a non-str or unencodable value) escapes unwrapped — the slot is still
untouched.  A successful validation stores the new value. -/
theorem set_validates_before_store (p : Packer) (name : String) (slot v : Value) :
    (∀ e, validateVal p v = .error e →
      pySet p name slot v
        = (slot, Option.some (if e.isBin then Err.fieldTag name e else e))) ∧
    (validateVal p v = .ok () → pySet p name slot v = (v, Option.none)) := by
  constructor
  · intro e he
    simp [pySet, he]
  · intro h
    simp [pySet, h]

/-- C8 (amended) at a concrete input: an out-of-range `int8` assignment
raises a `FieldError` naming the field and leaves the old value
readable. -/
theorem set_validates_before_store_witness :
    pySet (Packer.raw true 1 Option.none) "x" (Value.int 1) (Value.int 999)
      = (Value.int 1, Option.some (Err.fieldTag "x" Err.structErr)) := by
  have h := (set_validates_before_store (Packer.raw true 1 Option.none) "x"
      (Value.int 1) (Value.int 999)).1 Err.structErr
    (by simp [validateVal, rawValidate, inRange, rawMin, rawMax])
  simpa using h

/-- C9: `Packable.load` raises a `ValueError` for a non-`int` count and
for any count below 1, in both cases without touching the stream; a count
of exactly 1 returns the single instance read at the stream's position;
a count `n ≥ 2` returns an ordered list of `n` instances read
consecutively: the first from the stream's position, the remaining `n-1`
from where the first left off. -/
theorem load_count_contract (align : Nat) (fields : List FieldSpec)
    (s : Option (List Nat)) :
    pyLoad align fields s PyCount.notInt = .error .countErr ∧
    (∀ n : Int, n < 1 → pyLoad align fields s (PyCount.int n) = .error .countErr) ∧
    (∀ ret r, pyLoad align fields s (PyCount.int 1) = .ok (ret, r) →
      ∃ vs, ret = LoadRet.one vs ∧ loadInst align fields s = .ok (vs, r)) ∧
    (∀ n : Int, 2 ≤ n → ∀ ret r, pyLoad align fields s (PyCount.int n) = .ok (ret, r) →
      ∃ l, ret = LoadRet.many l ∧ l.length = n.toNat ∧
        ∃ vs s₁ l', loadInst align fields s = .ok (vs, s₁) ∧ l = vs :: l' ∧
          loadSeq align fields (n.toNat - 1) s₁ = .ok (l', r)) := by
  refine ⟨rfl, fun n hn => ?_, fun ret r h => ?_, fun n hn ret r h => ?_⟩
  · simp only [pyLoad]
    rw [if_pos hn]
  · cases hli : loadInst align fields s with
    | error e =>
      have hseq : loadSeq align fields 1 s = .error e := by
        show loadSeq align fields (0 + 1) s = _
        unfold loadSeq
        rw [hli]
      have hcomp : pyLoad align fields s (PyCount.int 1) = .error e := by
        simp only [pyLoad]
        rw [if_neg (by omega), show (1 : Int).toNat = 1 from rfl, hseq]
      rw [hcomp] at h
      exact absurd h (by simp)
    | ok pair =>
      obtain ⟨vs, s₁⟩ := pair
      have hseq : loadSeq align fields 1 s = .ok ([vs], s₁) := by
        show loadSeq align fields (0 + 1) s = _
        unfold loadSeq
        rw [hli]
        rfl
      have hcomp : pyLoad align fields s (PyCount.int 1) = .ok (LoadRet.one vs, s₁) := by
        simp only [pyLoad]
        rw [if_neg (by omega), show (1 : Int).toNat = 1 from rfl, hseq]
        simp
      rw [hcomp] at h
      obtain ⟨h2, h3⟩ := Prod.mk.injEq .. ▸ Except.ok.inj h
      subst h3
      exact ⟨vs, h2.symm, rfl⟩
  · have hm : n.toNat = n.toNat - 1 + 1 := by omega
    cases hls : loadSeq align fields n.toNat s with
    | error e =>
      have hcomp : pyLoad align fields s (PyCount.int n) = .error e := by
        simp only [pyLoad]
        rw [if_neg (by omega), hls]
      rw [hcomp] at h
      exact absurd h (by simp)
    | ok q =>
      obtain ⟨l, r'⟩ := q
      have hcomp : pyLoad align fields s (PyCount.int n) = .ok (LoadRet.many l, r') := by
        simp only [pyLoad]
        rw [if_neg (by omega), hls]
        show Except.ok (if n = 1 then LoadRet.one (l.headD []) else LoadRet.many l, r') = _
        rw [if_neg (by omega)]
      rw [hcomp] at h
      obtain ⟨h2, h3⟩ := Prod.mk.injEq .. ▸ Except.ok.inj h
      have hlen : l.length = n.toNat := loadSeq_length align fields n.toNat s l r' hls
      refine ⟨l, h2.symm, hlen, ?_⟩
      rw [hm] at hls
      unfold loadSeq at hls
      cases hli : loadInst align fields s with
      | error e2 => rw [hli] at hls; simp at hls
      | ok pair =>
        obtain ⟨vs, s₁⟩ := pair
        simp only [hli] at hls
        cases hls2 : loadSeq align fields (n.toNat - 1) s₁ with
        | error e2 => rw [hls2] at hls; simp [Except.map] at hls
        | ok q2 =>
          obtain ⟨l2, r''⟩ := q2
          simp only [hls2, Except.map] at hls
          obtain ⟨ha1, ha2⟩ := Prod.mk.injEq .. ▸ Except.ok.inj hls
          subst h3
          exact ⟨vs, s₁, l2, rfl, ha1.symm, by rw [hls2, ha2]⟩

/-- C9 at concrete inputs: on the two-byte-field schema and the stream
`[1, 2, 3, 4]`, a count of 0 errors before any read, and a count of 2
loads `(1, 2)` then `(3, 4)` consecutively. -/
theorem load_count_contract_witness :
    pyLoad 1 pointFields (Option.some [1, 2, 3, 4]) (PyCount.int 0)
      = .error .countErr ∧
    (∃ l, LoadRet.many [[Value.int 1, Value.int 2], [Value.int 3, Value.int 4]]
        = LoadRet.many l ∧ l.length = (2 : Int).toNat ∧
      ∃ vs s₁ l', loadInst 1 pointFields (Option.some [1, 2, 3, 4]) = .ok (vs, s₁) ∧
        l = vs :: l' ∧
        loadSeq 1 pointFields ((2 : Int).toNat - 1) s₁ = .ok (l', Option.some [])) := by
  constructor
  · exact (load_count_contract 1 pointFields (Option.some [1, 2, 3, 4])).2.1 0 (by decide)
  · exact (load_count_contract 1 pointFields (Option.some [1, 2, 3, 4])).2.2.2 2
      (by decide) _ _
      (by simp [pyLoad, loadSeq, loadInst, pointFields, checkDefaults, reloadNone,
        fillDefault, defaultVal, validateVal, rawValidate, inRange, rawMin, rawMax,
        reloadFields, unpackVal, rawUnpack, leVal, Err.isBin, Except.map])

/-- C10 (counterexample): the claim fails for a packable class whose
declared default is unrepresentable: with a field `int8(999)`, `load`
with a `None` stream raises a (twice-wrapped) `FieldError` from the
default fill instead of setting the field to its default. -/
theorem reload_none_invalid_default :
    loadInst 1 [("a", Packer.raw true 1 (Option.some 999))] Option.none
      = .error (Err.fieldTag "a" (Err.fieldTag "a" Err.structErr)) := by
  simp [loadInst, reloadNone, fillDefault, defaultVal, validateVal, rawValidate,
    inRange, rawMin, rawMax, Err.isBin, Except.map]

/-- C10 (amended): for every packable class whose field defaults pass
their own validation (exactly the classes that can be instantiated at
all), `reload(None)` (and each `load` iteration handed a `None` stream)
touches no bytes and sets every field to its packer's default, whatever
the fields held before. -/
theorem reload_none_defaults (align : Nat) (fields : List FieldSpec)
    (h : checkDefaults fields = .ok ()) :
    pyReload align fields Option.none = .ok (defaultsList fields, Option.none) ∧
    loadInst align fields Option.none = .ok (defaultsList fields, Option.none) := by
  have hr := reloadNone_eq_defaults fields h
  constructor
  · unfold pyReload
    rw [hr]
    rfl
  · unfold loadInst
    rw [hr]
    rfl

/-- C10 at a concrete input: the schema with defaults `(5, 6)` resets to
them on `reload(None)`. -/
theorem reload_none_defaults_witness :
    pyReload 1 pointFields Option.none
      = .ok (defaultsList pointFields, Option.none) :=
  (reload_none_defaults 1 pointFields
    (by simp [pointFields, checkDefaults, reloadNone, fillDefault, defaultVal,
      validateVal, rawValidate, inRange, rawMin, rawMax, Err.isBin, Except.map])).1


end Binstruct3
